import Mathlib

/-!
Verification of the `response` package of `jr_goresponse` (file `response.go` of the
repository, the version with `ResponsePack` as `map[string]map[string]*Response`).

The Go code is shallowly embedded:

* Go `map[string]V` values are association lists (`List (String × V)`) with distinct
  keys; map assignment is overwrite-or-append (`insertA`), deletion is `eraseA`,
  lookup is `lookupA`.  Go iterates maps in an unspecified order; the model iterates
  in insertion order.  All properties proved below that depend on iteration are
  order-insensitive (key sets, entry counts) unless explicitly noted.
* Go byte slices are `List Nat` with every element `< 256`.
* `codes.Method` is a string type and `codes.StatusCode` an integer type in the
  external `jr_httpcodes/codes` collaborator; they are embedded as `String`/`Nat`.
  `codes.IsSuccess` tests the 2xx range (spec §6: "isSuccess(code) -> bool (2xx range)").
* Fallible Go functions returning `(T, error)` become `Except String T`, carrying the
  exact `fmt.Errorf` message text.
* The `SuccessRatio`/`FailureRatio` fields are `float64`; no claim quantifies their
  values, they influence no other field, and floating point is outside the embedding,
  so they are omitted from the state model.  The counter updates of `AddResponse`
  are embedded in full.
* Goroutine pools are embedded by their aggregate sequential effect: the set of
  items actually dispatched is translated exactly (`take (min numCPU n)` for the
  truncating plain `BatchAddResponse`, the whole list for the channel-draining
  compressed one), and the per-item operation is folded over them.
-/

namespace GoResponse

/-! ### Decimal rendering of naturals (Go `fmt.Sprintf("%d", n)`)

A structurally recursive decimal printer (fuel-indexed so the kernel can evaluate
it), together with a parse-back function that proves it injective; injectivity of
round keys is what makes the `round_<n>` keys of a URL pairwise distinct. -/

/-- Fuel-indexed decimal digits of `n` (most significant first). -/
def natDecAux : Nat → Nat → List Char
  | 0, _ => []
  | fuel + 1, n =>
    if n < 10 then [Nat.digitChar n]
    else natDecAux fuel (n / 10) ++ [Nat.digitChar (n % 10)]

/-- Decimal rendering of a natural number, as produced by Go's `%d` verb. -/
def natDec (n : Nat) : List Char := natDecAux (n + 1) n

/-- Reads a decimal digit string back to a number; inverse of `natDecAux`. -/
def decVal (cs : List Char) : Nat :=
  cs.foldl (fun acc c => acc * 10 + (c.toNat - 48)) 0

theorem decVal_append_digit (xs : List Char) (c : Char) :
    decVal (xs ++ [c]) = decVal xs * 10 + (c.toNat - 48) := by
  simp [decVal, List.foldl_append]

theorem digitChar_val : ∀ d < 10, (Nat.digitChar d).toNat - 48 = d := by decide

theorem decVal_natDecAux : ∀ fuel n, n < fuel → decVal (natDecAux fuel n) = n := by
  intro fuel
  induction fuel with
  | zero => intro n h; omega
  | succ f ih =>
    intro n h
    by_cases h10 : n < 10
    · simp [natDecAux, h10, decVal, digitChar_val n h10]
    · have hdiv : n / 10 < f := by omega
      simp only [natDecAux, if_neg h10, decVal_append_digit, ih (n / 10) hdiv,
        digitChar_val (n % 10) (Nat.mod_lt n (by omega))]
      omega

theorem natDec_injective : Function.Injective natDec := by
  intro a b h
  have ha := decVal_natDecAux (a + 1) a (Nat.lt_succ_self a)
  have hb := decVal_natDecAux (b + 1) b (Nat.lt_succ_self b)
  rw [show natDecAux (a + 1) a = natDec a from rfl, h] at ha
  rw [show natDecAux (b + 1) b = natDec b from rfl] at hb
  omega

/-- The round key `fmt.Sprintf("round_%d", n)` used by both stores. -/
def roundKey (n : Nat) : String := String.mk ('r' :: 'o' :: 'u' :: 'n' :: 'd' :: '_' :: natDec n)

theorem roundKey_injective : Function.Injective roundKey := by
  intro a b h
  apply natDec_injective
  have : ('r' :: 'o' :: 'u' :: 'n' :: 'd' :: '_' :: natDec a)
      = ('r' :: 'o' :: 'u' :: 'n' :: 'd' :: '_' :: natDec b) := congrArg String.data h
  simpa using this

/-! ### Association lists as Go maps -/

/-- Go map lookup `m[k]` (the `value, ok := m[k]` form). -/
def lookupA {β : Type} : List (String × β) → String → Option β
  | [], _ => none
  | (k', v) :: rest, k => if k' = k then some v else lookupA rest k

/-- Replaces the value stored under an existing key. -/
def overwriteA {β : Type} : List (String × β) → String → β → List (String × β)
  | [], _, _ => []
  | (k', v') :: rest, k, v => (if k' = k then (k, v) else (k', v')) :: overwriteA rest k v

/-- Go map assignment `m[k] = v`: overwrite an existing key, otherwise append. -/
def insertA {β : Type} (m : List (String × β)) (k : String) (v : β) : List (String × β) :=
  if (lookupA m k).isSome then overwriteA m k v else m ++ [(k, v)]

/-- Go `delete(m, k)`. -/
def eraseA {β : Type} (m : List (String × β)) (k : String) : List (String × β) :=
  m.filter (fun p => p.1 ≠ k)

@[simp] theorem lookupA_nil {β : Type} (k : String) : lookupA ([] : List (String × β)) k = none := rfl

@[simp] theorem lookupA_cons {β : Type} (k' k : String) (v : β) (rest : List (String × β)) :
    lookupA ((k', v) :: rest) k = if k' = k then some v else lookupA rest k := rfl

theorem lookupA_append {β : Type} (m₁ m₂ : List (String × β)) (k : String) :
    lookupA (m₁ ++ m₂) k = ((lookupA m₁ k).or (lookupA m₂ k)) := by
  induction m₁ with
  | nil => simp
  | cons hd tl ih =>
    obtain ⟨k', v⟩ := hd
    by_cases h : k' = k <;> simp [h, ih]

theorem lookupA_mem {β : Type} {m : List (String × β)} {k : String} {v : β}
    (h : lookupA m k = some v) : (k, v) ∈ m := by
  induction m with
  | nil => simp [lookupA] at h
  | cons hd tl ih =>
    obtain ⟨k', v'⟩ := hd
    by_cases hk : k' = k
    · subst hk
      simp [lookupA] at h
      subst h
      exact List.mem_cons_self _ _
    · simp [lookupA, hk] at h
      exact List.mem_cons_of_mem _ (ih h)

theorem lookupA_eq_none_of_not_mem {β : Type} {m : List (String × β)} {k : String}
    (h : k ∉ m.map Prod.fst) : lookupA m k = none := by
  induction m with
  | nil => rfl
  | cons hd tl ih =>
    obtain ⟨k₀, v₀⟩ := hd
    simp only [List.map_cons, List.mem_cons] at h
    push_neg at h
    simp [lookupA, Ne.symm h.1, ih h.2]

/-- When the key is absent, Go map assignment is a plain append. -/
theorem insertA_of_not_mem {β : Type} {m : List (String × β)} {k : String} (v : β)
    (h : k ∉ m.map Prod.fst) : insertA m k v = m ++ [(k, v)] := by
  simp [insertA, lookupA_eq_none_of_not_mem h]

theorem length_overwriteA {β : Type} (m : List (String × β)) (k : String) (v : β) :
    (overwriteA m k v).length = m.length := by
  induction m with
  | nil => rfl
  | cons hd tl ih =>
    obtain ⟨k₀, v₀⟩ := hd
    simp [overwriteA, ih]

theorem length_insertA {β : Type} (m : List (String × β)) (k : String) (v : β) :
    (insertA m k v).length = if (lookupA m k).isSome then m.length else m.length + 1 := by
  by_cases h : (lookupA m k).isSome <;> simp [insertA, h, length_overwriteA]

theorem lookupA_overwriteA_self {β : Type} (m : List (String × β)) (k : String) (v : β) :
    lookupA (overwriteA m k v) k = if (lookupA m k).isSome then some v else none := by
  induction m with
  | nil => simp [overwriteA, lookupA]
  | cons hd tl ih =>
    obtain ⟨k₀, v₀⟩ := hd
    by_cases hk : k₀ = k
    · subst hk
      show lookupA ((if k₀ = k₀ then (k₀, v) else (k₀, v₀)) :: overwriteA tl k₀ v) k₀ = _
      rw [if_pos rfl]
      simp [lookupA]
    · show lookupA ((if k₀ = k then (k, v) else (k₀, v₀)) :: overwriteA tl k v) k = _
      rw [if_neg hk]
      simp [lookupA, hk, ih]

theorem lookupA_overwriteA_ne {β : Type} (m : List (String × β)) (k k' : String) (v : β)
    (h : k ≠ k') : lookupA (overwriteA m k v) k' = lookupA m k' := by
  induction m with
  | nil => rfl
  | cons hd tl ih =>
    obtain ⟨k₀, v₀⟩ := hd
    by_cases hk : k₀ = k
    · subst hk
      show lookupA ((if k₀ = k₀ then (k₀, v) else (k₀, v₀)) :: overwriteA tl k₀ v) k' = _
      rw [if_pos rfl]
      simp [lookupA, h, ih]
    · show lookupA ((if k₀ = k then (k, v) else (k₀, v₀)) :: overwriteA tl k v) k' = _
      rw [if_neg hk]
      simp [lookupA, ih]

theorem lookupA_insertA_self {β : Type} (m : List (String × β)) (k : String) (v : β) :
    lookupA (insertA m k v) k = some v := by
  unfold insertA
  by_cases h : (lookupA m k).isSome
  · simp [h, lookupA_overwriteA_self]
  · rw [if_neg (by simp [h]), lookupA_append]
    rw [Option.not_isSome_iff_eq_none] at h
    simp [h, lookupA]

theorem lookupA_insertA_ne {β : Type} (m : List (String × β)) (k k' : String) (v : β)
    (h : k ≠ k') : lookupA (insertA m k v) k' = lookupA m k' := by
  unfold insertA
  by_cases hs : (lookupA m k).isSome
  · simp [hs, lookupA_overwriteA_ne m k k' v h]
  · simp [hs, lookupA_append, lookupA, h]

/-! ### The `Response` record and the status-code collaborator -/

/-- `codes.IsSuccess`: the 2xx range (external collaborator `jr_httpcodes/codes`). -/
def isSuccess (code : Nat) : Bool := 200 ≤ code && code ≤ 299

/-- The `Response` struct (`Method`/`StatusCode` are the string/integer types of the
`codes` collaborator; `Headers` is a Go map; `Body`/`RawResponse` are byte slices). -/
structure Response where
  method : String
  statusCode : Nat
  url : String
  host : String
  headers : List (String × String)
  body : List Nat
  bodyLength : Nat
  rawResponse : List Nat
  deriving DecidableEq, Repr

/-! ### Base64 (standard alphabet with padding)

Go's `encoding/json` marshals a `[]byte` field as the standard base64 encoding of
its contents; this is what makes non-UTF-8 binary bodies survive the JSON layer.
The encoder/decoder below follow RFC 4648 / Go `encoding/base64.StdEncoding`. -/

/-- The base64 alphabet: sextet value to character. -/
def b64Char (s : Nat) : Char :=
  if s < 26 then Char.ofNat (s + 65)
  else if s < 52 then Char.ofNat (s + 71)
  else if s < 62 then Char.ofNat (s - 4)
  else if s = 62 then '+'
  else '/'

/-- The base64 alphabet: character back to sextet value. -/
def b64Val (c : Char) : Option Nat :=
  let n := c.toNat
  if 65 ≤ n ∧ n ≤ 90 then some (n - 65)
  else if 97 ≤ n ∧ n ≤ 122 then some (n - 71)
  else if 48 ≤ n ∧ n ≤ 57 then some (n + 4)
  else if n = 43 then some 62
  else if n = 47 then some 63
  else none

theorem b64Val_b64Char : ∀ s < 64, b64Val (b64Char s) = some s := by decide

theorem b64Char_ne_pad : ∀ s < 64, b64Char s ≠ '=' := by decide

/-- Base64 encoding of a byte sequence, three bytes to four characters, with
`'='` padding on the final partial group. -/
def b64EncodeList : List Nat → List Char
  | [] => []
  | [a] => [b64Char (a / 4), b64Char (a % 4 * 16), '=', '=']
  | [a, b] => [b64Char (a / 4), b64Char (a % 4 * 16 + b / 16), b64Char (b % 16 * 4), '=']
  | a :: b :: c :: rest =>
    b64Char (a / 4) :: b64Char (a % 4 * 16 + b / 16) :: b64Char (b % 16 * 4 + c / 64) ::
      b64Char (c % 64) :: b64EncodeList rest

/-- Base64 decoding; `none` on any malformed input (stray character, bad length,
or padding before the end), as Go's decoder errors there. -/
def b64DecodeList : List Char → Option (List Nat)
  | [] => some []
  | c1 :: c2 :: c3 :: c4 :: rest =>
    (b64Val c1).bind fun v1 =>
      (b64Val c2).bind fun v2 =>
        if c3 = '=' then
          if c4 = '=' ∧ rest = [] then some [v1 * 4 + v2 / 16] else none
        else
          (b64Val c3).bind fun v3 =>
            if c4 = '=' then
              if rest = [] then some [v1 * 4 + v2 / 16, v2 % 16 * 16 + v3 / 4] else none
            else
              (b64Val c4).bind fun v4 =>
                (b64DecodeList rest).map fun tail =>
                  (v1 * 4 + v2 / 16) :: (v2 % 16 * 16 + v3 / 4) :: (v3 % 4 * 64 + v4) :: tail
  | _ => none

theorem b64DecodeList_b64EncodeList :
    ∀ l : List Nat, (∀ x ∈ l, x < 256) → b64DecodeList (b64EncodeList l) = some l
  | [], _ => rfl
  | [a], h => by
    have ha : a < 256 := h a (by simp)
    rw [b64EncodeList, b64DecodeList]
    rw [b64Val_b64Char (a / 4) (by omega), b64Val_b64Char (a % 4 * 16) (by omega)]
    simp only [Option.some_bind, if_pos rfl, and_self, if_pos]
    have h1 : a / 4 * 4 + a % 4 * 16 / 16 = a := by omega
    rw [h1]
  | [a, b], h => by
    have ha : a < 256 := h a (by simp)
    have hb : b < 256 := h b (by simp)
    rw [b64EncodeList, b64DecodeList]
    rw [b64Val_b64Char (a / 4) (by omega), b64Val_b64Char (a % 4 * 16 + b / 16) (by omega)]
    simp only [Option.some_bind]
    rw [if_neg (b64Char_ne_pad (b % 16 * 4) (by omega))]
    rw [b64Val_b64Char (b % 16 * 4) (by omega)]
    simp only [Option.some_bind, if_pos rfl]
    have h1 : a / 4 * 4 + (a % 4 * 16 + b / 16) / 16 = a := by omega
    have h2 : (a % 4 * 16 + b / 16) % 16 * 16 + b % 16 * 4 / 4 = b := by omega
    rw [h1, h2]
    simp
  | a :: b :: c :: rest, h => by
    have ha : a < 256 := h a (by simp)
    have hb : b < 256 := h b (by simp)
    have hc : c < 256 := h c (by simp)
    have ih := b64DecodeList_b64EncodeList rest (fun x hx => h x (by simp [hx]))
    rw [b64EncodeList, b64DecodeList]
    rw [b64Val_b64Char (a / 4) (by omega), b64Val_b64Char (a % 4 * 16 + b / 16) (by omega)]
    simp only [Option.some_bind]
    rw [if_neg (b64Char_ne_pad (b % 16 * 4 + c / 64) (by omega))]
    rw [b64Val_b64Char (b % 16 * 4 + c / 64) (by omega)]
    simp only [Option.some_bind]
    rw [if_neg (b64Char_ne_pad (c % 64) (by omega))]
    rw [b64Val_b64Char (c % 64) (by omega), ih]
    simp only [Option.some_bind, Option.map_some']
    have h1 : a / 4 * 4 + (a % 4 * 16 + b / 16) / 16 = a := by omega
    have h2 : (a % 4 * 16 + b / 16) % 16 * 16 + (b % 16 * 4 + c / 64) / 4 = b := by omega
    have h3 : (b % 16 * 4 + c / 64) % 4 * 64 + c % 64 = c := by omega
    rw [h1, h2, h3]

/-- `base64.StdEncoding.EncodeToString`. -/
def base64Encode (bytes : List Nat) : String := String.mk (b64EncodeList bytes)

/-- `base64.StdEncoding.DecodeString`. -/
def base64Decode (s : String) : Option (List Nat) := b64DecodeList s.data

theorem base64Decode_base64Encode (bytes : List Nat) (h : ∀ x ∈ bytes, x < 256) :
    base64Decode (base64Encode bytes) = some bytes :=
  b64DecodeList_b64EncodeList bytes h

/-! ### JSON serialization of a `Response`

`Response.ToJSON` is Go's `json.Marshal` of the struct; it is embedded at the
granularity of JSON values (the rendering of a JSON value to UTF-8 text and its
reparse are inverse bijections on well-formed documents and carry no information,
so the text layer is elided).  Byte-slice fields are base64 strings, exactly as
`encoding/json` emits them; `json.Marshal` of this struct cannot fail. -/

/-- A JSON value (the fragment `json.Marshal` produces for a `Response`). -/
inductive Json where
  | str (s : String)
  | num (n : Nat)
  | obj (fields : List (String × Json))

/-- `json.Unmarshal` of a JSON value into a `string` field: missing keys leave the
zero value, a non-string value is a type error. -/
def unmStr : Option Json → Option String
  | none => some ""
  | some (.str s) => some s
  | some _ => none

/-- `json.Unmarshal` into a `uint64` field. -/
def unmNat : Option Json → Option Nat
  | none => some 0
  | some (.num n) => some n
  | some _ => none

/-- `json.Unmarshal` into a `[]byte` field: the JSON string is base64-decoded. -/
def unmBytes : Option Json → Option (List Nat)
  | none => some []
  | some (.str s) => base64Decode s
  | some _ => none

/-- `json.Unmarshal` into the `map[string]string` headers field. -/
def decodeHeaders : List (String × Json) → Option (List (String × String))
  | [] => some []
  | (k, .str v) :: rest => (decodeHeaders rest).map (fun tail => (k, v) :: tail)
  | _ => none

/-- `json.Unmarshal` into the headers field, zero value when the key is absent. -/
def unmHeaders : Option Json → Option (List (String × String))
  | none => some []
  | some (.obj hs) => decodeHeaders hs
  | some _ => none

/-- `Response.ToJSON` (`json.Marshal` with the struct's field tags). -/
def Response.ToJSON (r : Response) : Json :=
  .obj [("method", .str r.method), ("statusCode", .num r.statusCode),
    ("url", .str r.url), ("host", .str r.host),
    ("headers", .obj (r.headers.map (fun kv => (kv.1, Json.str kv.2)))),
    ("body", .str (base64Encode r.body)), ("bodyLength", .num r.bodyLength),
    ("rawResponse", .str (base64Encode r.rawResponse))]

/-- `json.Unmarshal` of a JSON value into a `Response`; `none` is the unmarshal
error path. -/
def unmarshalResponse (j : Json) : Option Response :=
  match j with
  | .obj fields =>
    (unmStr (lookupA fields "method")).bind fun method =>
      (unmNat (lookupA fields "statusCode")).bind fun statusCode =>
        (unmStr (lookupA fields "url")).bind fun url =>
          (unmStr (lookupA fields "host")).bind fun host =>
            (unmHeaders (lookupA fields "headers")).bind fun headers =>
              (unmBytes (lookupA fields "body")).bind fun body =>
                (unmNat (lookupA fields "bodyLength")).bind fun bodyLength =>
                  (unmBytes (lookupA fields "rawResponse")).map fun rawResponse =>
                    ⟨method, statusCode, url, host, headers, body, bodyLength, rawResponse⟩
  | _ => none

/-- Modelled from the spec: the compressed blob.  The gzip codec (Go stdlib
`compress/gzip`, an external collaborator not part of this repository) is per
spec §4.4/§6 "a general-purpose lossless compressor" applied to the serialized
record, whose write-then-read round trip is the identity on the carried bytes.
A `GzipData` value therefore stands for the compressed bytes of its serialized
payload; the DEFLATE bit stream itself carries no further information. -/
structure GzipData where
  payload : Json

/-- `Response.Compress`: serialize with `ToJSON`, then gzip the result. -/
def Response.Compress (r : Response) : Except String GzipData :=
  .ok ⟨r.ToJSON⟩

/-- `NewResponseFromCompressed`: gunzip, then `json.Unmarshal` into a `Response`. -/
def NewResponseFromCompressed (g : GzipData) : Except String Response :=
  match unmarshalResponse g.payload with
  | some r => .ok r
  | none => .error "failed to unmarshal response"

theorem decodeHeaders_map (hs : List (String × String)) :
    decodeHeaders (hs.map (fun kv => (kv.1, Json.str kv.2))) = some hs := by
  induction hs with
  | nil => rfl
  | cons hd tl ih =>
    obtain ⟨k, v⟩ := hd
    simp [decodeHeaders, ih]

theorem unmarshalResponse_ToJSON (r : Response)
    (hb : ∀ x ∈ r.body, x < 256) (hr : ∀ x ∈ r.rawResponse, x < 256) :
    unmarshalResponse r.ToJSON = some r := by
  simp [Response.ToJSON, unmarshalResponse, lookupA, unmStr, unmNat, unmHeaders, unmBytes,
    decodeHeaders_map, base64Decode_base64Encode r.body hb,
    base64Decode_base64Encode r.rawResponse hr]

/-! ### The plain `ResponsePack` -/

/-- `ResponsePack` (`Responses` is `map[URL]map[roundKey]*Response`; the float
ratio fields are omitted, see the header comment; `mu` is the lock and has no
sequential content). -/
structure ResponsePack where
  responses : List (String × List (String × Response))
  total : Nat
  success : Nat
  failure : Nat
  info : List (String × String)

/-- `NewResponsePack`: empty maps, zero counters. -/
def NewResponsePack : ResponsePack := ⟨[], 0, 0, 0, []⟩

/-- `ResponsePack.AddResponse`: nil check, counter updates, then commit under the
allocated round key (`round_1` for a fresh URL, `round_<count+1>` otherwise). -/
def ResponsePack.AddResponse (p : ResponsePack) (response : Option Response) :
    Except String ResponsePack :=
  match response with
  | none => .error "response is nil"
  | some r =>
    let success := if isSuccess r.statusCode then p.success + 1 else p.success
    let failure := if isSuccess r.statusCode then p.failure else p.failure + 1
    let total := p.total + 1
    match lookupA p.responses r.url with
    | none =>
      .ok ⟨insertA p.responses r.url [(roundKey 1, r)], total, success, failure, p.info⟩
    | some inner =>
      .ok ⟨insertA p.responses r.url (insertA inner (roundKey (inner.length + 1)) r),
        total, success, failure, p.info⟩

/-- `ResponsePack.GetResponse`: all rounds for a URL, or a not-found error. -/
def ResponsePack.GetResponse (p : ResponsePack) (url : String) :
    Except String (List Response) :=
  match lookupA p.responses url with
  | none => .error ("response not found for URL: " ++ url)
  | some inner => .ok (inner.map Prod.snd)

/-- The inner map `ResponsePack.BatchGetResponse` builds for one URL: the slice
index is used directly, so keys are `round_0`, `round_1`, ... -/
def roundEntriesFromZero (l : List Response) : List (String × Response) :=
  l.enum.map (fun x => (roundKey x.1, x.2))

/-- `ResponsePack.BatchGetResponse`: per-URL lookups (concurrent in Go, embedded
by their aggregate effect), misses contribute errors without aborting the rest,
hits are keyed `round_<sliceIndex>` starting at 0. -/
def ResponsePack.BatchGetResponse (p : ResponsePack) (urls : List String) :
    List (String × List (String × Response)) × List String :=
  let errors := urls.filterMap (fun u =>
    match p.GetResponse u with
    | .error e => some e
    | .ok _ => none)
  let results := urls.filterMap (fun u =>
    match p.GetResponse u with
    | .ok l => if l.isEmpty then none else some l
    | .error _ => none)
  let output := results.foldl (fun out l =>
    match l with
    | [] => out
    | r0 :: _ => insertA out r0.url (roundEntriesFromZero l)) []
  (output, errors)

/-- `ResponsePack.GetKeysOfResponses`: all stored URLs. -/
def ResponsePack.GetKeysOfResponses (p : ResponsePack) : List String :=
  p.responses.map Prod.fst

/-- `ResponsePack.BatchAddResponse`: launches `min(NumCPU, len(responses))`
workers, worker `i` handling only `responses[i]` — so only the first
`maxWorkers` items are ever dispatched.  `numCPU` is `runtime.NumCPU()`. -/
def ResponsePack.BatchAddResponse (p : ResponsePack) (numCPU : Nat)
    (responses : List (Option Response)) : ResponsePack × List String :=
  let maxWorkers := min numCPU responses.length
  (responses.take maxWorkers).foldl
    (fun acc r =>
      match acc.1.AddResponse r with
      | .ok p' => (p', acc.2)
      | .error e => (acc.1, acc.2 ++ [e]))
    (p, [])

/-- `ResponsePack.Len`: the size of the outer map, i.e. the number of URL keys. -/
def ResponsePack.Len (p : ResponsePack) : Nat := p.responses.length

/-- The inner loop of `GetErrorReport` over one URL's rounds: for every
non-success round, `output[url]` is re-created as a fresh map holding just that
round (so an earlier failing round of the same URL is discarded). -/
def errReportStep (out : List (String × List (String × Response))) (url : String)
    (inner : List (String × Response)) : List (String × List (String × Response)) :=
  inner.foldl
    (fun out2 x =>
      if isSuccess x.2.statusCode then out2 else insertA out2 url [(x.1, x.2)])
    out

/-- `ResponsePack.GetErrorReport`: error when the pack is empty; otherwise the
nested loop `errReportStep` over every URL. -/
def ResponsePack.GetErrorReport (p : ResponsePack) :
    Except String (List (String × List (String × Response))) :=
  if p.Len = 0 then .error "no responses found"
  else .ok (p.responses.foldl (fun out e => errReportStep out e.1 e.2) [])

/-- Folding a list of (non-nil, hence always successfully added) records into a
pack; the sequential core shared by the claims about `Add` sequences. -/
def applyAdds (p : ResponsePack) (rs : List Response) : ResponsePack :=
  rs.foldl
    (fun p r =>
      match p.AddResponse (some r) with
      | .ok p' => p'
      | .error _ => p)
    p

/-! ### The `CompressResponsePack` -/

/-- `CompressResponsePack` (`CompressedResponses` is
`map[URL]map[roundKey][]byte` of gzip blobs). -/
structure CompressResponsePack where
  compressedResponses : List (String × List (String × GzipData))
  metaInfo : List (String × String)

/-- `NewCompressResponsePack`. -/
def NewCompressResponsePack : CompressResponsePack := ⟨[], []⟩

/-- `CompressResponsePack.AddResponse`: compress, then commit under the allocated
round key exactly as the plain store does. -/
def CompressResponsePack.AddResponse (cp : CompressResponsePack)
    (response : Option Response) : Except String CompressResponsePack :=
  match response with
  | none => .error "response is nil"
  | some r =>
    match r.Compress with
    | .error e => .error e
    | .ok blob =>
      match lookupA cp.compressedResponses r.url with
      | none =>
        .ok ⟨insertA cp.compressedResponses r.url [(roundKey 1, blob)], cp.metaInfo⟩
      | some inner =>
        .ok ⟨insertA cp.compressedResponses r.url
          (insertA inner (roundKey (inner.length + 1)) blob), cp.metaInfo⟩

/-- `CompressResponsePack.BatchAddResponse`: the workers drain a shared channel
holding every submitted item, so the whole list is processed regardless of the
worker count (`numCPU` bounds only the parallelism, not the set of items). -/
def CompressResponsePack.BatchAddResponse (cp : CompressResponsePack)
    (numCPU : Nat) (responses : List (Option Response)) :
    CompressResponsePack × List String :=
  let _ := numCPU
  responses.foldl
    (fun acc r =>
      match acc.1.AddResponse r with
      | .ok cp' => (cp', acc.2)
      | .error e => (acc.1, acc.2 ++ [e]))
    (cp, [])

/-- `CompressResponsePack.GetResponseCount`: total number of stored
(URL, round) entries, summed across all URLs. -/
def CompressResponsePack.GetResponseCount (cp : CompressResponsePack) : Nat :=
  cp.compressedResponses.foldl (fun counter e => counter + e.2.length) 0

/-- `CompressResponsePack.GetResponse`: decompress every round stored for the
URL; any decompression failure fails the whole call. -/
def CompressResponsePack.GetResponse (cp : CompressResponsePack) (url : String) :
    Except String (List Response) :=
  match lookupA cp.compressedResponses url with
  | none => .error ("response not found for URL: " ++ url)
  | some inner => inner.mapM (fun x => NewResponseFromCompressed x.2)

/-- `CompressResponsePack.BatchGetResponse`: on any per-URL error the call
returns a nil map and the error list; otherwise, for every decompressed round,
`responses[url]` is re-created as a fresh singleton map keyed
`round_<sliceIndex+1>` (so only the final round of each URL survives). -/
def CompressResponsePack.BatchGetResponse (cp : CompressResponsePack)
    (urls : List String) :
    Option (List (String × List (String × Response))) × List String :=
  let errors := urls.filterMap (fun u =>
    match cp.GetResponse u with
    | .error e => some e
    | .ok _ => none)
  if errors.isEmpty then
    let results := urls.filterMap (fun u =>
      match cp.GetResponse u with
      | .ok l => if l.isEmpty then none else some l
      | .error _ => none)
    let output := results.foldl (fun out l =>
      l.enum.foldl (fun out2 x => insertA out2 x.2.url [(roundKey (x.1 + 1), x.2)]) out) []
    (some output, [])
  else (none, errors)

/-- `CompressResponsePack.DeleteResponse`: removes every round of the URL (the
code's reset of the outer map to a fresh empty map when it becomes empty is the
identity on contents); not-found error when the URL is absent. -/
def CompressResponsePack.DeleteResponse (cp : CompressResponsePack) (url : String) :
    Except String CompressResponsePack :=
  match lookupA cp.compressedResponses url with
  | none => .error ("response not found for URL: " ++ url)
  | some _ => .ok ⟨eraseA cp.compressedResponses url, cp.metaInfo⟩

/-- Folding records into a compressed pack, mirroring `applyAdds`. -/
def applyCompressAdds (cp : CompressResponsePack) (rs : List Response) :
    CompressResponsePack :=
  rs.foldl
    (fun cp r =>
      match cp.AddResponse (some r) with
      | .ok cp' => cp'
      | .error _ => cp)
    cp

/-! ### Concrete records used by witnesses and counterexamples

They mirror the fixtures of the repository's own test files. -/

/-- A 200 OK record (the `testResp1` fixture shape). -/
def sampleOk : Response :=
  ⟨"GET", 200, "https://example.com/api1", "example.com",
    [("Content-Type", "application/json")], [123, 125], 2, [72, 84]⟩

/-- A 201 Created record under a second URL. -/
def sampleCreated : Response :=
  ⟨"POST", 201, "https://example.com/api2", "example.com",
    [("Content-Type", "application/json")], [], 0, []⟩

/-- A 404 Not Found record under a third URL. -/
def sampleNotFound : Response :=
  ⟨"GET", 404, "https://example.com/api3", "example.com",
    [("Content-Type", "application/json")], [], 0, []⟩

/-- A 200 record whose body and raw bytes are non-UTF-8 binary
(`0xFF 0xFE` is not valid UTF-8). -/
def sampleBinary : Response :=
  ⟨"GET", 200, "https://example.com/bin", "example.com",
    [("Content-Type", "application/octet-stream")], [255, 254, 0], 3, [200, 10, 255]⟩

/-- A 404 record under the shared failing URL. -/
def sampleErr404 : Response :=
  ⟨"GET", 404, "https://example.com/err", "example.com", [], [], 0, []⟩

/-- A 500 record under the same URL as `sampleErr404`. -/
def sampleErr500 : Response :=
  ⟨"GET", 500, "https://example.com/err", "example.com", [], [], 0, []⟩

/-! ### Shared lemmas about `AddResponse` -/

theorem AddResponse_counters (p : ResponsePack) (r : Response) :
    ∃ p', p.AddResponse (some r) = .ok p' ∧
      p'.total = p.total + 1 ∧
      p'.success = (if isSuccess r.statusCode then p.success + 1 else p.success) ∧
      p'.failure = (if isSuccess r.statusCode then p.failure else p.failure + 1) := by
  cases h : lookupA p.responses r.url with
  | none =>
    refine ⟨⟨insertA p.responses r.url [(roundKey 1, r)], p.total + 1,
      if isSuccess r.statusCode then p.success + 1 else p.success,
      if isSuccess r.statusCode then p.failure else p.failure + 1, p.info⟩,
      ?_, rfl, rfl, rfl⟩
    simp [ResponsePack.AddResponse, h]
  | some inner =>
    refine ⟨⟨insertA p.responses r.url (insertA inner (roundKey (inner.length + 1)) r),
      p.total + 1,
      if isSuccess r.statusCode then p.success + 1 else p.success,
      if isSuccess r.statusCode then p.failure else p.failure + 1, p.info⟩,
      ?_, rfl, rfl, rfl⟩
    simp [ResponsePack.AddResponse, h]

theorem length_filter_add_length_filter_not {α : Type} (l : List α) (f : α → Bool) :
    (l.filter f).length + (l.filter (fun x => !f x)).length = l.length := by
  induction l with
  | nil => rfl
  | cons hd tl ih =>
    cases hf : f hd <;> simp [List.filter_cons, hf] <;> omega

theorem applyAdds_counters (rs : List Response) : ∀ p : ResponsePack,
    (applyAdds p rs).total = p.total + rs.length ∧
    (applyAdds p rs).success
      = p.success + (rs.filter (fun r => isSuccess r.statusCode)).length ∧
    (applyAdds p rs).failure
      = p.failure + (rs.filter (fun r => !isSuccess r.statusCode)).length := by
  induction rs with
  | nil => intro p; simp [applyAdds]
  | cons r rs ih =>
    intro p
    obtain ⟨p', hok, ht, hs, hf⟩ := AddResponse_counters p r
    have hstep : applyAdds p (r :: rs) = applyAdds p' rs := by
      simp [applyAdds, hok]
    obtain ⟨iht, ihs, ihf⟩ := ih p'
    rw [hstep]
    refine ⟨?_, ?_, ?_⟩
    · simp only [List.length_cons]
      omega
    · rw [List.filter_cons]
      cases hr : isSuccess r.statusCode <;>
        simp only [hr, if_true, if_false, List.length_cons, Bool.false_eq_true,
          ite_true, ite_false] at hs ⊢ <;> omega
    · rw [List.filter_cons]
      cases hr : isSuccess r.statusCode <;>
        simp only [hr, Bool.not_true, Bool.not_false, List.length_cons, Bool.false_eq_true,
          Bool.true_eq_false, ite_true, ite_false, if_true, if_false] at hf ⊢ <;> omega

/-- C3: starting from a fresh `ResponsePack`, after any sequence of `N`
successful `AddResponse` calls (non-nil records, every call committing), the
counters satisfy `total = success + failure = N`, where `success` counts exactly
the adds with a 2xx status and `failure` all the others. -/
theorem c3_counter_invariant (rs : List Response) :
    (applyAdds NewResponsePack rs).total
        = (applyAdds NewResponsePack rs).success + (applyAdds NewResponsePack rs).failure ∧
    (applyAdds NewResponsePack rs).total = rs.length ∧
    (applyAdds NewResponsePack rs).success
        = (rs.filter (fun r => isSuccess r.statusCode)).length ∧
    (applyAdds NewResponsePack rs).failure
        = (rs.filter (fun r => !isSuccess r.statusCode)).length := by
  obtain ⟨ht, hs, hf⟩ := applyAdds_counters rs NewResponsePack
  have hsplit := length_filter_add_length_filter_not rs (fun r => isSuccess r.statusCode)
  simp only [show NewResponsePack.total = 0 from rfl, show NewResponsePack.success = 0 from rfl,
    show NewResponsePack.failure = 0 from rfl, Nat.zero_add] at ht hs hf
  beta_reduce at hsplit
  exact ⟨by omega, ht, hs, hf⟩

/-! ### C1: `BatchAddResponse` truncates its input on the plain store -/

/-- C1 (evaluation at the failing input): with one worker (`runtime.NumCPU() = 1`)
and two valid records, the plain store's `BatchAddResponse` launches
`min(NumCPU, len) = 1` workers, worker `i` handling only `responses[i]`, so only
the first record is added: `Total` ends at 1 instead of 2 (and no error is
reported for the dropped record).  The compressed store's `BatchAddResponse`,
whose workers drain a shared channel holding every item, adds both.  The claim
that both stores apply `Add` to every record therefore fails on the plain store. -/
theorem c1_plain_batchAdd_truncates :
    (ResponsePack.BatchAddResponse NewResponsePack 1 [some sampleOk, some sampleCreated]).1.total = 1 ∧
    (ResponsePack.BatchAddResponse NewResponsePack 1 [some sampleOk, some sampleCreated]).2 = [] ∧
    (CompressResponsePack.BatchAddResponse NewCompressResponsePack 1
        [some sampleOk, some sampleCreated]).1.GetResponseCount = 2 :=
  ⟨by decide, by decide, by decide⟩

/-! ### C2: compress / decompress round trip -/

/-- C2: for every record whose byte fields hold bytes (values below 256, which is
all a `[]byte` can hold), decompressing the result of `Compress` succeeds and
returns a record equal to the original in every field — including non-UTF-8
binary `Body`/`RawResponse`, which survive because `json.Marshal` base64-encodes
`[]byte` fields. -/
theorem c2_compress_roundtrip (r : Response)
    (hb : ∀ x ∈ r.body, x < 256) (hr : ∀ x ∈ r.rawResponse, x < 256) :
    r.Compress.bind NewResponseFromCompressed = .ok r := by
  simp [Response.Compress, Except.bind, NewResponseFromCompressed,
    unmarshalResponse_ToJSON r hb hr]

/-- C2 witness: the round trip at a concrete record whose body bytes
`0xFF 0xFE 0x00` and raw bytes `0xC8 0x0A 0xFF` are not valid UTF-8. -/
theorem c2_compress_roundtrip_witness :
    (∀ x ∈ sampleBinary.body, x < 256) ∧
      sampleBinary.Compress.bind NewResponseFromCompressed = .ok sampleBinary :=
  ⟨by decide, c2_compress_roundtrip sampleBinary (by decide) (by decide)⟩

/-! ### C5 counterexample: only one failing round per URL survives the report -/

/-- C5 (counterexample): a store holding exactly two rounds for one URL, both
failing (404 then 500).  The claim says every failing round of the URL
contributes an entry, so the inner report map would need 2 entries; the code
re-creates `output[url]` at each failing round, and the returned inner map has
exactly 1 entry. -/
theorem c5_single_entry_counterexample :
    (applyAdds NewResponsePack [sampleErr404, sampleErr500]).responses
        = [("https://example.com/err",
            [(roundKey 1, sampleErr404), (roundKey 2, sampleErr500)])] ∧
    ¬ isSuccess sampleErr404.statusCode ∧ ¬ isSuccess sampleErr500.statusCode ∧
    (match (applyAdds NewResponsePack [sampleErr404, sampleErr500]).GetErrorReport with
      | .ok m => (lookupA m "https://example.com/err").map List.length
      | .error _ => none) = some 1 :=
  ⟨by decide, by decide, by decide, by decide⟩

/-! ### C6: `BatchGetResponse` round keys -/

/-- C6 (evaluation at the failing input): a URL stored with rounds
`round_1`, `round_2` (k = 2).  The claim says `BatchGet` returns, for that URL,
an inner map with exactly k entries keyed from 1.  The plain store returns two
entries but keys them `round_0`, `round_1` (the slice index, starting at 0,
contradicting the function's own doc-comment example `round_1`); the compressed
store re-creates the inner map at every round and returns a single entry keyed
`round_2`. -/
theorem c6_batchGet_round_keys :
    ((lookupA ((applyAdds NewResponsePack [sampleErr404, sampleErr500]).BatchGetResponse
        ["https://example.com/err"]).1 "https://example.com/err").map
      (fun l => l.map Prod.fst) = some [roundKey 0, roundKey 1]) ∧
    (((applyAdds NewResponsePack [sampleErr404, sampleErr500]).BatchGetResponse
        ["https://example.com/err"]).2 = []) ∧
    ((match (applyCompressAdds NewCompressResponsePack
          [sampleErr404, sampleErr500]).BatchGetResponse ["https://example.com/err"] with
      | (some out, _) => (lookupA out "https://example.com/err").map (fun l => l.map Prod.fst)
      | (none, _) => none) = some [roundKey 2]) :=
  ⟨by decide, by decide, by decide⟩

/-! ### C7: only the error report errors on emptiness -/

/-- C7: on a freshly constructed pack `GetErrorReport` returns the store-empty
error (`"no responses found"`), not an empty map; `GetErrorReport` errors exactly
on stores with zero entries; the other read operations return normally on the
empty store (`Len`, `GetKeysOfResponses` are total, and `GetResponse` returns a
URL-specific not-found error — a different error value — which it equally
returns on non-empty stores missing that URL). -/
theorem c7_empty_store_error_report :
    NewResponsePack.GetErrorReport = .error "no responses found" ∧
    (∀ p : ResponsePack, (∃ e, p.GetErrorReport = .error e) ↔ p.responses = []) ∧
    NewResponsePack.Len = 0 ∧
    NewResponsePack.GetKeysOfResponses = [] ∧
    (∀ url, NewResponsePack.GetResponse url
        = .error ("response not found for URL: " ++ url) ∧
      ("response not found for URL: " ++ url) ≠ "no responses found") := by
  refine ⟨rfl, ?_, rfl, rfl, ?_⟩
  · intro p
    constructor
    · rintro ⟨e, he⟩
      by_cases h : p.Len = 0
      · exact List.length_eq_zero.mp h
      · simp [ResponsePack.GetErrorReport, h] at he
    · intro h
      refine ⟨"no responses found", ?_⟩
      have hlen : p.Len = 0 := by simp [ResponsePack.Len, h]
      simp [ResponsePack.GetErrorReport, hlen]
  · intro url
    refine ⟨rfl, ?_⟩
    intro h
    have h2 := congrArg String.length h
    rw [String.length_append] at h2
    have e1 : ("response not found for URL: " : String).length = 28 := rfl
    have e2 : ("no responses found" : String).length = 18 := rfl
    omega

/-! ### C10: a non-empty all-success store yields an empty report, no error -/

theorem errReportStep_id (url : String) :
    ∀ (inner : List (String × Response)) (out : List (String × List (String × Response))),
      (∀ x ∈ inner, isSuccess x.2.statusCode) → errReportStep out url inner = out := by
  intro inner
  induction inner with
  | nil => intro out _; rfl
  | cons x tl ih =>
    intro out h
    have hx : isSuccess x.2.statusCode := h x (by simp)
    have htl : ∀ y ∈ tl, isSuccess y.2.statusCode := fun y hy => h y (by simp [hy])
    simp only [errReportStep, List.foldl_cons, hx, if_true]
    exact ih out htl

/-- C10: `GetErrorReport` on a store that contains at least one response, all of
whose stored responses carry 2xx statuses, returns the empty map with no error:
the emptiness error fires only on zero entries, never on zero failures. -/
theorem c10_all_success_empty_report (p : ResponsePack) (hne : p.responses ≠ [])
    (hall : ∀ e ∈ p.responses, ∀ x ∈ e.2, isSuccess x.2.statusCode) :
    p.GetErrorReport = .ok [] := by
  have hlen : p.Len ≠ 0 := by
    simp only [ResponsePack.Len]
    exact fun h => hne (List.length_eq_zero.mp h)
  have hfold : ∀ (l : List (String × List (String × Response)))
      (out : List (String × List (String × Response))),
      (∀ e ∈ l, ∀ x ∈ e.2, isSuccess x.2.statusCode) →
      l.foldl (fun out e => errReportStep out e.1 e.2) out = out := by
    intro l
    induction l with
    | nil => intro out _; rfl
    | cons e tl ih =>
      intro out h
      simp only [List.foldl_cons]
      rw [errReportStep_id e.1 e.2 out (h e (by simp))]
      exact ih out (fun y hy => h y (by simp [hy]))
  simp [ResponsePack.GetErrorReport, hlen, hfold p.responses [] hall]

/-- C10 witness: a one-record (200-status) store. -/
theorem c10_all_success_empty_report_witness :
    (⟨[("https://example.com/api1", [(roundKey 1, sampleOk)])], 1, 1, 0, []⟩ :
        ResponsePack).GetErrorReport = .ok [] :=
  c10_all_success_empty_report _ (by decide) (by decide)

/-! ### C4: round keys are contiguous from 1, assigned in insertion order -/

/-- The inner map of a URL carries exactly the keys `round_1 .. round_k`, in
insertion order. -/
def innerRoundKeys {β : Type} (inner : List (String × β)) : Prop :=
  inner.map Prod.fst = (List.range inner.length).map (fun i => roundKey (i + 1))

theorem roundKey_next_fresh {β : Type} (inner : List (String × β))
    (h : innerRoundKeys inner) : lookupA inner (roundKey (inner.length + 1)) = none := by
  apply lookupA_eq_none_of_not_mem
  rw [h]
  intro hmem
  obtain ⟨i, hi, hkey⟩ := List.mem_map.mp hmem
  have hlt : i < inner.length := List.mem_range.mp hi
  have := roundKey_injective hkey
  omega

/-- Allocating the next round key on a well-formed inner map appends. -/
theorem insertA_next_round {β : Type} (inner : List (String × β)) (v : β)
    (h : innerRoundKeys inner) :
    insertA inner (roundKey (inner.length + 1)) v
      = inner ++ [(roundKey (inner.length + 1), v)] := by
  simp [insertA, roundKey_next_fresh inner h]

theorem innerRoundKeys_append {β : Type} (inner : List (String × β)) (v : β)
    (h : innerRoundKeys inner) :
    innerRoundKeys (inner ++ [(roundKey (inner.length + 1), v)]) := by
  unfold innerRoundKeys at h ⊢
  simp [List.range_succ, h]

theorem mem_overwriteA {β : Type} {m : List (String × β)} {k : String} {v : β}
    {e : String × β} (h : e ∈ overwriteA m k v) : e = (k, v) ∨ e ∈ m := by
  induction m with
  | nil => simp [overwriteA] at h
  | cons hd tl ih =>
    obtain ⟨k₀, v₀⟩ := hd
    simp only [overwriteA, List.mem_cons] at h
    rcases h with h | h
    · by_cases hk : k₀ = k
      · rw [if_pos hk] at h
        exact Or.inl h
      · rw [if_neg hk] at h
        exact Or.inr (by simp [h])
    · rcases ih h with h' | h'
      · exact Or.inl h'
      · exact Or.inr (by simp [h'])

theorem mem_insertA {β : Type} {m : List (String × β)} {k : String} {v : β}
    {e : String × β} (h : e ∈ insertA m k v) : e = (k, v) ∨ e ∈ m := by
  unfold insertA at h
  by_cases hs : (lookupA m k).isSome
  · rw [if_pos hs] at h
    exact mem_overwriteA h
  · rw [if_neg hs] at h
    rcases List.mem_append.mp h with h | h
    · exact Or.inr h
    · exact Or.inl (by simpa using h)

/-- Every inner map of the pack is round-key well-formed. -/
def packWF (p : ResponsePack) : Prop := ∀ e ∈ p.responses, innerRoundKeys e.2

/-- The rounds stored for a URL, in insertion order ([] when the URL is absent). -/
def asList (p : ResponsePack) (url : String) : List Response :=
  ((lookupA p.responses url).getD []).map Prod.snd

theorem addResponse_responses_none (p : ResponsePack) (r : Response)
    (hlk : lookupA p.responses r.url = none) :
    ∀ p', p.AddResponse (some r) = .ok p' →
      p'.responses = insertA p.responses r.url [(roundKey 1, r)] := by
  intro p' hok
  simp only [ResponsePack.AddResponse, hlk, Except.ok.injEq] at hok
  simp [← hok]

theorem addResponse_responses_some (p : ResponsePack) (r : Response)
    (inner : List (String × Response)) (hlk : lookupA p.responses r.url = some inner) :
    ∀ p', p.AddResponse (some r) = .ok p' →
      p'.responses = insertA p.responses r.url
        (insertA inner (roundKey (inner.length + 1)) r) := by
  intro p' hok
  simp only [ResponsePack.AddResponse, hlk, Except.ok.injEq] at hok
  simp [← hok]

theorem addResponse_wf_asList (p : ResponsePack) (r : Response) (hwf : packWF p)
    (p' : ResponsePack) (hok : p.AddResponse (some r) = .ok p') :
    packWF p' ∧
      ∀ url, asList p' url = asList p url ++ (if r.url = url then [r] else []) := by
  cases hlk : lookupA p.responses r.url with
  | none =>
    have hresp := addResponse_responses_none p r hlk p' hok
    constructor
    · intro e he
      rw [hresp] at he
      rcases mem_insertA he with he | he
      · simp only [he]
        simp [innerRoundKeys, List.range_succ]
      · exact hwf e he
    · intro url
      by_cases hu : r.url = url
      · subst hu
        simp [asList, hresp, lookupA_insertA_self, hlk]
      · simp [asList, hresp, lookupA_insertA_ne _ _ _ _ hu, hu]
  | some inner =>
    have hresp := addResponse_responses_some p r inner hlk p' hok
    have hIRK : innerRoundKeys inner := hwf (r.url, inner) (lookupA_mem hlk)
    have hins := insertA_next_round inner r hIRK
    constructor
    · intro e he
      rw [hresp, hins] at he
      rcases mem_insertA he with he | he
      · simp only [he]
        exact innerRoundKeys_append inner r hIRK
      · exact hwf e he
    · intro url
      by_cases hu : r.url = url
      · subst hu
        simp [asList, hresp, hins, lookupA_insertA_self, hlk]
      · simp [asList, hresp, lookupA_insertA_ne _ _ _ _ hu, hu]

theorem applyAdds_wf_asList (rs : List Response) : ∀ p, packWF p →
    packWF (applyAdds p rs) ∧
    ∀ url, asList (applyAdds p rs) url
      = asList p url ++ (rs.filter (fun x => x.url == url)) := by
  induction rs with
  | nil =>
    intro p hwf
    exact ⟨hwf, fun url => by simp [applyAdds]⟩
  | cons r rs ih =>
    intro p hwf
    obtain ⟨p', hok, -, -, -⟩ := AddResponse_counters p r
    obtain ⟨hwf', hstep⟩ := addResponse_wf_asList p r hwf p' hok
    have happ : applyAdds p (r :: rs) = applyAdds p' rs := by simp [applyAdds, hok]
    obtain ⟨hwf'', hlist⟩ := ih p' hwf'
    rw [happ]
    refine ⟨hwf'', fun url => ?_⟩
    rw [hlist url, hstep url, List.filter_cons]
    by_cases hu : r.url = url
    · simp [hu]
    · have hb : (r.url == url) = false := by simp [hu]
      simp [hu, hb]

theorem roundKeys_range_nodup (n : Nat) :
    ((List.range n).map (fun i => roundKey (i + 1))).Nodup := by
  refine List.Nodup.map ?_ (List.nodup_range _)
  intro a b hab
  have := roundKey_injective hab
  omega

theorem cpAddResponse_responses_none (q : CompressResponsePack) (r : Response)
    (hlk : lookupA q.compressedResponses r.url = none) :
    ∀ q', q.AddResponse (some r) = .ok q' →
      q'.compressedResponses
        = insertA q.compressedResponses r.url [(roundKey 1, ⟨r.ToJSON⟩)] := by
  intro q' hok
  simp only [CompressResponsePack.AddResponse, Response.Compress, hlk,
    Except.ok.injEq] at hok
  simp [← hok]

theorem cpAddResponse_responses_some (q : CompressResponsePack) (r : Response)
    (inner : List (String × GzipData))
    (hlk : lookupA q.compressedResponses r.url = some inner) :
    ∀ q', q.AddResponse (some r) = .ok q' →
      q'.compressedResponses = insertA q.compressedResponses r.url
        (insertA inner (roundKey (inner.length + 1)) ⟨r.ToJSON⟩) := by
  intro q' hok
  simp only [CompressResponsePack.AddResponse, Response.Compress, hlk,
    Except.ok.injEq] at hok
  simp [← hok]

theorem cpAddResponse_some_ok (q : CompressResponsePack) (r : Response) :
    ∃ q', q.AddResponse (some r) = .ok q' := by
  cases h : lookupA q.compressedResponses r.url with
  | none =>
    exact ⟨⟨insertA q.compressedResponses r.url [(roundKey 1, ⟨r.ToJSON⟩)], q.metaInfo⟩,
      by simp [CompressResponsePack.AddResponse, Response.Compress, h]⟩
  | some inner =>
    exact ⟨⟨insertA q.compressedResponses r.url
        (insertA inner (roundKey (inner.length + 1)) ⟨r.ToJSON⟩), q.metaInfo⟩,
      by simp [CompressResponsePack.AddResponse, Response.Compress, h]⟩

/-- The blobs stored for a URL in the compressed store, in insertion order. -/
def cpAsList (cp : CompressResponsePack) (url : String) : List GzipData :=
  ((lookupA cp.compressedResponses url).getD []).map Prod.snd

theorem cpAddResponse_wf_asList (q : CompressResponsePack) (r : Response)
    (hwf : ∀ e ∈ q.compressedResponses, innerRoundKeys e.2)
    (q' : CompressResponsePack) (hok : q.AddResponse (some r) = .ok q') :
    (∀ e ∈ q'.compressedResponses, innerRoundKeys e.2) ∧
      ∀ url, cpAsList q' url
        = cpAsList q url ++ (if r.url = url then [GzipData.mk r.ToJSON] else []) := by
  cases hlk : lookupA q.compressedResponses r.url with
  | none =>
    have hresp := cpAddResponse_responses_none q r hlk q' hok
    constructor
    · intro e he
      rw [hresp] at he
      rcases mem_insertA he with he | he
      · simp only [he]
        simp [innerRoundKeys, List.range_succ]
      · exact hwf e he
    · intro url
      by_cases hu : r.url = url
      · subst hu
        simp [cpAsList, hresp, lookupA_insertA_self, hlk]
      · simp [cpAsList, hresp, lookupA_insertA_ne _ _ _ _ hu, hu]
  | some inner =>
    have hresp := cpAddResponse_responses_some q r inner hlk q' hok
    have hIRK : innerRoundKeys inner := hwf (r.url, inner) (lookupA_mem hlk)
    have hins := insertA_next_round inner (⟨r.ToJSON⟩ : GzipData) hIRK
    constructor
    · intro e he
      rw [hresp, hins] at he
      rcases mem_insertA he with he | he
      · simp only [he]
        exact innerRoundKeys_append inner _ hIRK
      · exact hwf e he
    · intro url
      by_cases hu : r.url = url
      · subst hu
        simp [cpAsList, hresp, hins, lookupA_insertA_self, hlk]
      · simp [cpAsList, hresp, lookupA_insertA_ne _ _ _ _ hu, hu]

theorem applyCompressAdds_wf_asList (rs : List Response) : ∀ q : CompressResponsePack,
    (∀ e ∈ q.compressedResponses, innerRoundKeys e.2) →
    (∀ e ∈ (applyCompressAdds q rs).compressedResponses, innerRoundKeys e.2) ∧
    ∀ url, cpAsList (applyCompressAdds q rs) url
      = cpAsList q url
        ++ (rs.filter (fun x => x.url == url)).map (fun r => GzipData.mk r.ToJSON) := by
  induction rs with
  | nil =>
    intro q hwf
    exact ⟨hwf, fun url => by simp [applyCompressAdds]⟩
  | cons r rs ih =>
    intro q hwf
    obtain ⟨q', hok⟩ := cpAddResponse_some_ok q r
    obtain ⟨hwf', hstep⟩ := cpAddResponse_wf_asList q r hwf q' hok
    have happ : applyCompressAdds q (r :: rs) = applyCompressAdds q' rs := by
      simp [applyCompressAdds, hok]
    obtain ⟨hwf'', hlist⟩ := ih q' hwf'
    rw [happ]
    refine ⟨hwf'', fun url => ?_⟩
    rw [hlist url, hstep url, List.filter_cons]
    by_cases hu : r.url = url
    · simp [hu]
    · have hb : (r.url == url) = false := by simp [hu]
      simp [hu, hb]

/-- C4: after any sequence of successful adds of the same records into a fresh
plain pack and a fresh compressed pack, the rounds stored under any URL — in
either store — carry exactly the keys `round_1 .. round_k` (contiguous from 1,
no two alike), and the values under those keys are, in insertion order, exactly
the added records with that URL (their compressed blobs in the compressed
store): the i-th insertion under a URL received key `round_i` in both stores. -/
theorem c4_round_key_allocation (rs : List Response) (url : String) :
    (∀ inner : List (String × Response),
      lookupA (applyAdds NewResponsePack rs).responses url = some inner →
        inner.map Prod.fst = (List.range inner.length).map (fun i => roundKey (i + 1)) ∧
        (inner.map Prod.fst).Nodup ∧
        inner.map Prod.snd = rs.filter (fun x => x.url == url)) ∧
    (∀ cinner : List (String × GzipData),
      lookupA (applyCompressAdds NewCompressResponsePack rs).compressedResponses url
          = some cinner →
        cinner.map Prod.fst
          = (List.range cinner.length).map (fun i => roundKey (i + 1)) ∧
        (cinner.map Prod.fst).Nodup ∧
        cinner.map Prod.snd
          = (rs.filter (fun x => x.url == url)).map (fun r => GzipData.mk r.ToJSON)) := by
  constructor
  · intro inner h
    obtain ⟨hwf, hlist⟩ := applyAdds_wf_asList rs NewResponsePack
      (by intro e he; simp [NewResponsePack] at he)
    have hIRK : innerRoundKeys inner := hwf (url, inner) (lookupA_mem h)
    refine ⟨hIRK, ?_, ?_⟩
    · rw [hIRK]
      exact roundKeys_range_nodup _
    · have hl := hlist url
      simp only [asList] at hl
      rw [h, show NewResponsePack.responses
          = ([] : List (String × List (String × Response))) from rfl] at hl
      simpa using hl
  · intro cinner hc
    obtain ⟨hwf, hlist⟩ := applyCompressAdds_wf_asList rs NewCompressResponsePack
      (by intro e he; simp [NewCompressResponsePack] at he)
    have hIRK : innerRoundKeys cinner := hwf (url, cinner) (lookupA_mem hc)
    refine ⟨hIRK, ?_, ?_⟩
    · rw [hIRK]
      exact roundKeys_range_nodup _
    · have hl := hlist url
      simp only [cpAsList] at hl
      rw [hc, show NewCompressResponsePack.compressedResponses
          = ([] : List (String × List (String × GzipData))) from rfl] at hl
      simpa using hl

/-- C4 witness: adding the same 200-record twice yields rounds 1 and 2 under its
URL in the plain store and in the compressed store, with the records (resp.
their compressed blobs) in insertion order. -/
theorem c4_round_key_allocation_witness :
    ((([(roundKey 1, sampleOk), (roundKey 2, sampleOk)] :
        List (String × Response)).map Prod.fst
      = (List.range ([(roundKey 1, sampleOk), (roundKey 2, sampleOk)] :
          List (String × Response)).length).map (fun i => roundKey (i + 1))) ∧
    ((([(roundKey 1, sampleOk), (roundKey 2, sampleOk)] :
        List (String × Response)).map Prod.fst).Nodup) ∧
    (([(roundKey 1, sampleOk), (roundKey 2, sampleOk)] :
        List (String × Response)).map Prod.snd
      = [sampleOk, sampleOk].filter (fun x => x.url == "https://example.com/api1"))) ∧
    ((([(roundKey 1, GzipData.mk sampleOk.ToJSON),
          (roundKey 2, GzipData.mk sampleOk.ToJSON)] :
        List (String × GzipData)).map Prod.fst
      = (List.range ([(roundKey 1, GzipData.mk sampleOk.ToJSON),
            (roundKey 2, GzipData.mk sampleOk.ToJSON)] :
          List (String × GzipData)).length).map (fun i => roundKey (i + 1))) ∧
    ((([(roundKey 1, GzipData.mk sampleOk.ToJSON),
          (roundKey 2, GzipData.mk sampleOk.ToJSON)] :
        List (String × GzipData)).map Prod.fst).Nodup) ∧
    (([(roundKey 1, GzipData.mk sampleOk.ToJSON),
          (roundKey 2, GzipData.mk sampleOk.ToJSON)] :
        List (String × GzipData)).map Prod.snd
      = ([sampleOk, sampleOk].filter (fun x => x.url == "https://example.com/api1")).map
          (fun r => GzipData.mk r.ToJSON))) :=
  ⟨(c4_round_key_allocation [sampleOk, sampleOk] "https://example.com/api1").1 _ rfl,
    (c4_round_key_allocation [sampleOk, sampleOk] "https://example.com/api1").2 _ rfl⟩

/-! ### C5 (amended): what `GetErrorReport` actually retains per URL -/

/-- The last non-success round met by a left-to-right scan of an inner map
(`none` when every round is a success). -/
def lastFail : List (String × Response) → Option (String × Response)
  | [] => none
  | x :: tl =>
    (lastFail tl).orElse
      (fun _ => if isSuccess x.2.statusCode then none else some x)

theorem lastFail_mem : ∀ {inner : List (String × Response)} {x : String × Response},
    lastFail inner = some x → x ∈ inner ∧ isSuccess x.2.statusCode = false := by
  intro inner
  induction inner with
  | nil => intro x h; simp [lastFail] at h
  | cons hd tl ih =>
    intro x h
    cases htl : lastFail tl with
    | some y =>
      simp only [lastFail, htl, Option.some_orElse', Option.some.injEq] at h
      obtain ⟨hy, hfy⟩ := ih htl
      subst h
      exact ⟨List.mem_cons_of_mem _ hy, hfy⟩
    | none =>
      simp only [lastFail, htl, Option.none_orElse'] at h
      by_cases hs : isSuccess hd.2.statusCode
      · rw [if_pos hs] at h
        exact absurd h (by simp)
      · rw [if_neg hs] at h
        simp only [Option.some.injEq] at h
        subst h
        exact ⟨List.mem_cons_self _ _, by simpa using hs⟩

theorem lastFail_eq_none : ∀ inner : List (String × Response),
    lastFail inner = none ↔ ∀ x ∈ inner, isSuccess x.2.statusCode := by
  intro inner
  induction inner with
  | nil => simp [lastFail]
  | cons hd tl ih =>
    cases htl : lastFail tl with
    | some y =>
      obtain ⟨hy, hfy⟩ := lastFail_mem htl
      simp only [lastFail, htl, Option.some_orElse']
      constructor
      · intro h; exact absurd h (by simp)
      · intro h
        have hy2 := h y (List.mem_cons_of_mem _ hy)
        rw [hy2] at hfy
        exact absurd hfy (by simp)
    | none =>
      have htlAll := (ih).mp htl
      simp only [lastFail, htl, Option.none_orElse']
      by_cases hs : isSuccess hd.2.statusCode
      · rw [if_pos hs]
        constructor
        · intro _ x hx
          rcases List.mem_cons.mp hx with h | h
          · exact h ▸ hs
          · exact htlAll x h
        · intro _; rfl
      · rw [if_neg hs]
        constructor
        · intro h; exact absurd h (by simp)
        · intro h
          exact absurd (h hd (List.mem_cons_self _ _)) hs

theorem errReportStep_lookup (url u : String) :
    ∀ (inner : List (String × Response))
      (out : List (String × List (String × Response))),
      lookupA (errReportStep out url inner) u =
        match lastFail inner with
        | some x => if u = url then some [x] else lookupA out u
        | none => lookupA out u := by
  intro inner
  induction inner with
  | nil => intro out; rfl
  | cons x tl ih =>
    intro out
    have hstep : errReportStep out url (x :: tl)
        = errReportStep
            (if isSuccess x.2.statusCode then out else insertA out url [(x.1, x.2)])
            url tl := by
      simp [errReportStep]
    rw [hstep, ih]
    cases htl : lastFail tl with
    | some y =>
      by_cases hs : isSuccess x.2.statusCode
      · simp [lastFail, htl, hs, Option.some_orElse']
      · by_cases hu : u = url
        · simp [lastFail, htl, hs, hu, Option.some_orElse']
        · simp [lastFail, htl, hs, hu, Option.some_orElse',
            lookupA_insertA_ne out url u [(x.1, x.2)] (fun hh => hu hh.symm)]
    | none =>
      by_cases hs : isSuccess x.2.statusCode
      · simp [lastFail, htl, hs, Option.none_orElse']
      · by_cases hu : u = url
        · subst hu
          simp [lastFail, htl, hs, Option.none_orElse', lookupA_insertA_self]
        · simp [lastFail, htl, hs, hu, Option.none_orElse',
            lookupA_insertA_ne out url u [(x.1, x.2)] (fun hh => hu hh.symm)]

theorem errReportFold_lookup :
    ∀ (resps : List (String × List (String × Response)))
      (out : List (String × List (String × Response))) (u : String),
      (resps.map Prod.fst).Nodup →
      lookupA (resps.foldl (fun out e => errReportStep out e.1 e.2) out) u =
        match lookupA resps u with
        | some inner =>
          (match lastFail inner with
            | some x => some [x]
            | none => lookupA out u)
        | none => lookupA out u := by
  intro resps
  induction resps with
  | nil => intro out u _; rfl
  | cons e tl ih =>
    intro out u hnd
    obtain ⟨k₀, inner₀⟩ := e
    obtain ⟨hnotin, hnd'⟩ : k₀ ∉ tl.map Prod.fst ∧ (tl.map Prod.fst).Nodup := by
      simpa [List.nodup_cons] using hnd
    simp only [List.foldl_cons]
    rw [ih (errReportStep out k₀ inner₀) u hnd']
    by_cases hu : k₀ = u
    · subst hu
      have htl : lookupA tl k₀ = none := lookupA_eq_none_of_not_mem hnotin
      rw [errReportStep_lookup k₀ k₀ inner₀ out]
      cases hf : lastFail inner₀ <;> simp [htl, hf, lookupA_cons]
    · have hout : lookupA (errReportStep out k₀ inner₀) u = lookupA out u := by
        rw [errReportStep_lookup k₀ u inner₀ out]
        cases lastFail inner₀ with
        | none => rfl
        | some y => simp [show ¬u = k₀ from fun hh => hu hh.symm]
      have hcons : lookupA ((k₀, inner₀) :: tl) u = lookupA tl u := by simp [lookupA_cons, hu]
      rw [hout, hcons]

/-- C5 (amended): on any well-formed non-empty pack, `GetErrorReport` succeeds
and its map has an entry for a URL exactly when that URL stores at least one
non-success round; but the entry holds exactly ONE failing round of that URL
(the inner map is re-created at each failing round, so only the last one scanned
survives) — not every failing round, as the original claim stated.  The claim's
concrete scenario (one 200 and one 404 record under distinct URLs giving exactly
one entry, for the 404 URL) is the witness below. -/
theorem c5_error_report_amended (p : ResponsePack)
    (hnd : (p.responses.map Prod.fst).Nodup) (hne : p.responses ≠ []) :
    ∃ m, p.GetErrorReport = .ok m ∧
      ∀ u : String,
        ((∃ e, lookupA m u = some e) ↔
          (∃ inner, lookupA p.responses u = some inner ∧
            ∃ x ∈ inner, isSuccess x.2.statusCode = false)) ∧
        (∀ e, lookupA m u = some e →
          ∃ inner x, lookupA p.responses u = some inner ∧ e = [x] ∧ x ∈ inner ∧
            isSuccess x.2.statusCode = false) := by
  have hlen : p.Len ≠ 0 := fun h => hne (List.length_eq_zero.mp h)
  refine ⟨p.responses.foldl (fun out e => errReportStep out e.1 e.2) [],
    by simp [ResponsePack.GetErrorReport, hlen], ?_⟩
  intro u
  have hl := errReportFold_lookup p.responses [] u hnd
  constructor
  · constructor
    · rintro ⟨e, he⟩
      rw [hl] at he
      cases hr : lookupA p.responses u with
      | none => simp [hr] at he
      | some inner =>
        cases hf : lastFail inner with
        | none => simp [hr, hf] at he
        | some x =>
          obtain ⟨hx, hfx⟩ := lastFail_mem hf
          exact ⟨inner, rfl, x, hx, hfx⟩
    · rintro ⟨inner, hr, x, hx, hfx⟩
      rw [hl]
      cases hf : lastFail inner with
      | none =>
        have := (lastFail_eq_none inner).mp hf x hx
        rw [this] at hfx
        simp at hfx
      | some y => exact ⟨[y], by simp [hr, hf]⟩
  · intro e he
    rw [hl] at he
    cases hr : lookupA p.responses u with
    | none => simp [hr] at he
    | some inner =>
      cases hf : lastFail inner with
      | none => simp [hr, hf] at he
      | some x =>
        obtain ⟨hx, hfx⟩ := lastFail_mem hf
        refine ⟨inner, x, rfl, ?_, hx, hfx⟩
        simp [hr, hf] at he
        exact he.symm

/-- C5 (amended) witness: the claim's own scenario — a 200 record and a 404
record under distinct URLs. -/
theorem c5_error_report_amended_witness :
    ∃ m, (⟨[("https://example.com/api1", [(roundKey 1, sampleOk)]),
        ("https://example.com/api3", [(roundKey 1, sampleNotFound)])], 2, 1, 1, []⟩ :
          ResponsePack).GetErrorReport = .ok m ∧
      ∀ u : String,
        ((∃ e, lookupA m u = some e) ↔
          (∃ inner, lookupA (⟨[("https://example.com/api1", [(roundKey 1, sampleOk)]),
              ("https://example.com/api3", [(roundKey 1, sampleNotFound)])], 2, 1, 1, []⟩ :
                ResponsePack).responses u = some inner ∧
            ∃ x ∈ inner, isSuccess x.2.statusCode = false)) ∧
        (∀ e, lookupA m u = some e →
          ∃ inner x, lookupA (⟨[("https://example.com/api1", [(roundKey 1, sampleOk)]),
              ("https://example.com/api3", [(roundKey 1, sampleNotFound)])], 2, 1, 1, []⟩ :
                ResponsePack).responses u = some inner ∧ e = [x] ∧ x ∈ inner ∧
            isSuccess x.2.statusCode = false) :=
  c5_error_report_amended _ (by decide) (by decide)

/-! ### C8: `DeleteResponse` on the compressed store -/

theorem lookupA_eraseA_self {β : Type} (m : List (String × β)) (k : String) :
    lookupA (eraseA m k) k = none := by
  apply lookupA_eq_none_of_not_mem
  intro h
  obtain ⟨e, he, hk⟩ := List.mem_map.mp h
  have hmem := List.mem_filter.mp he
  rw [hk] at hmem
  simp at hmem

theorem lookupA_eraseA_ne {β : Type} (m : List (String × β)) (k u : String)
    (h : u ≠ k) : lookupA (eraseA m k) u = lookupA m u := by
  induction m with
  | nil => rfl
  | cons hd tl ih =>
    obtain ⟨k₀, v₀⟩ := hd
    by_cases hk : k₀ = k
    · subst hk
      rw [show eraseA ((k₀, v₀) :: tl) k₀ = eraseA tl k₀ from by
        simp [eraseA, List.filter_cons]]
      rw [ih]
      have hne : ¬ k₀ = u := fun hh => h hh.symm
      simp [lookupA, hne]
    · rw [show eraseA ((k₀, v₀) :: tl) k = (k₀, v₀) :: eraseA tl k from by
        simp [eraseA, List.filter_cons, hk]]
      by_cases hku : k₀ = u
      · simp [lookupA, hku]
      · simp [lookupA, hku, ih]

/-- C8: deleting a URL present in a `CompressResponsePack` succeeds, removes
every round stored under it (a later `GetResponse` for it returns the not-found
error) and leaves every other URL untouched; deleting an absent URL returns the
not-found error (and, the operation being functional, the store is unchanged). -/
theorem c8_delete_removes_url (cp : CompressResponsePack) (url : String) :
    (∀ inner, lookupA cp.compressedResponses url = some inner →
      ∃ cp', cp.DeleteResponse url = .ok cp' ∧
        lookupA cp'.compressedResponses url = none ∧
        cp'.GetResponse url = .error ("response not found for URL: " ++ url) ∧
        ∀ u, u ≠ url → lookupA cp'.compressedResponses u
          = lookupA cp.compressedResponses u) ∧
    (lookupA cp.compressedResponses url = none →
      cp.DeleteResponse url = .error ("response not found for URL: " ++ url)) := by
  constructor
  · intro inner hlk
    refine ⟨⟨eraseA cp.compressedResponses url, cp.metaInfo⟩, ?_, ?_, ?_, ?_⟩
    · simp [CompressResponsePack.DeleteResponse, hlk]
    · exact lookupA_eraseA_self _ _
    · simp [CompressResponsePack.GetResponse, lookupA_eraseA_self]
    · intro u hu
      exact lookupA_eraseA_ne _ _ _ hu
  · intro hlk
    simp [CompressResponsePack.DeleteResponse, hlk]

/-- C8 witness: a compressed store holding two rounds under one URL; deleting
that URL removes both rounds, and deleting an absent URL errors. -/
theorem c8_delete_removes_url_witness :
    (∃ cp', (applyCompressAdds NewCompressResponsePack
          [sampleErr404, sampleErr500]).DeleteResponse "https://example.com/err"
        = .ok cp' ∧
      lookupA cp'.compressedResponses "https://example.com/err" = none ∧
      cp'.GetResponse "https://example.com/err"
        = .error ("response not found for URL: " ++ "https://example.com/err") ∧
      ∀ u, u ≠ "https://example.com/err" → lookupA cp'.compressedResponses u
        = lookupA (applyCompressAdds NewCompressResponsePack
            [sampleErr404, sampleErr500]).compressedResponses u) ∧
    ((applyCompressAdds NewCompressResponsePack
          [sampleErr404, sampleErr500]).DeleteResponse "https://missing.example"
        = .error ("response not found for URL: " ++ "https://missing.example")) :=
  ⟨(c8_delete_removes_url _ "https://example.com/err").1 _ rfl,
    (c8_delete_removes_url _ "https://missing.example").2 rfl⟩

/-! ### C9: the two stores count in different units -/

theorem foldl_add_eq {α : Type} (f : α → Nat) : ∀ (m : List α) (a : Nat),
    m.foldl (fun c e => c + f e) a = a + (m.map f).sum := by
  intro m
  induction m with
  | nil => intro a; simp
  | cons hd tl ih =>
    intro a
    simp [List.foldl_cons, ih, List.sum_cons]
    omega

theorem getResponseCount_eq_sum (cp : CompressResponsePack) :
    cp.GetResponseCount = (cp.compressedResponses.map (fun e => e.2.length)).sum := by
  simpa using foldl_add_eq (fun e => e.2.length) cp.compressedResponses 0

theorem not_mem_of_lookupA_eq_none {β : Type} {m : List (String × β)} {k : String}
    (h : lookupA m k = none) : k ∉ m.map Prod.fst := by
  induction m with
  | nil => simp
  | cons hd tl ih =>
    obtain ⟨k₀, v₀⟩ := hd
    by_cases hk : k₀ = k
    · simp [lookupA, hk] at h
    · simp only [lookupA, hk, if_false] at h
      simp [Ne.symm hk, ih h]

theorem overwriteA_of_not_mem {β : Type} : ∀ (m : List (String × β)) (k : String) (v : β),
    k ∉ m.map Prod.fst → overwriteA m k v = m := by
  intro m
  induction m with
  | nil => intro k v _; rfl
  | cons hd tl ih =>
    intro k v h
    obtain ⟨k₀, v₀⟩ := hd
    simp only [List.map_cons, List.mem_cons] at h
    push_neg at h
    have hne : ¬ k₀ = k := fun hh => h.1 hh.symm
    simp only [overwriteA, if_neg hne]
    rw [ih k v h.2]

theorem sum_map_overwriteA {β : Type} (f : β → Nat) :
    ∀ (m : List (String × β)) (k : String) (v old : β),
      (m.map Prod.fst).Nodup → lookupA m k = some old →
      ((overwriteA m k v).map (fun e => f e.2)).sum + f old
        = (m.map (fun e => f e.2)).sum + f v := by
  intro m
  induction m with
  | nil => intro k v old _ h; simp [lookupA] at h
  | cons hd tl ih =>
    intro k v old hnd hlk
    obtain ⟨k₀, v₀⟩ := hd
    obtain ⟨hnotin, hnd'⟩ : k₀ ∉ tl.map Prod.fst ∧ (tl.map Prod.fst).Nodup := by
      simpa [List.nodup_cons] using hnd
    by_cases hk : k₀ = k
    · subst hk
      simp only [lookupA, if_pos, Option.some.injEq, reduceIte] at hlk
      subst hlk
      simp only [overwriteA, reduceIte, overwriteA_of_not_mem tl k₀ v hnotin,
        List.map_cons, List.sum_cons]
      omega
    · simp only [lookupA, if_neg hk] at hlk
      have hih := ih k v old hnd' hlk
      simp only [overwriteA, if_neg hk, List.map_cons, List.sum_cons]
      omega

/-- C9: the two stores count in different units.  On the plain store, `Len`
counts distinct URL keys: adding a record whose URL is already present leaves
`Len` unchanged, adding a record with a fresh URL raises it by one — regardless
of how many rounds each URL holds.  On the compressed store (with well-formed
round keys), `GetResponseCount` counts stored (URL, round) entries: every
successful add raises it by exactly one, duplicate URL or not. -/
theorem c9_count_units (p : ResponsePack) (q : CompressResponsePack) (r : Response)
    (hqn : (q.compressedResponses.map Prod.fst).Nodup)
    (hqk : ∀ e ∈ q.compressedResponses, innerRoundKeys e.2) :
    (∀ inner, lookupA p.responses r.url = some inner →
      ∀ p', p.AddResponse (some r) = .ok p' → p'.Len = p.Len) ∧
    (lookupA p.responses r.url = none →
      ∀ p', p.AddResponse (some r) = .ok p' → p'.Len = p.Len + 1) ∧
    (∀ q', q.AddResponse (some r) = .ok q' →
      q'.GetResponseCount = q.GetResponseCount + 1) := by
  refine ⟨?_, ?_, ?_⟩
  · intro inner hlk p' hok
    have hresp := addResponse_responses_some p r inner hlk p' hok
    have hsome : (lookupA p.responses r.url).isSome := by simp [hlk]
    simp [ResponsePack.Len, hresp, length_insertA, hsome]
  · intro hlk p' hok
    have hresp := addResponse_responses_none p r hlk p' hok
    have hnone : ¬ (lookupA p.responses r.url).isSome := by simp [hlk]
    simp [ResponsePack.Len, hresp, length_insertA, hnone]
  · intro q' hok
    rw [getResponseCount_eq_sum, getResponseCount_eq_sum]
    cases hlk : lookupA q.compressedResponses r.url with
    | none =>
      rw [cpAddResponse_responses_none q r hlk q' hok,
        insertA_of_not_mem _ (not_mem_of_lookupA_eq_none hlk)]
      simp
    | some inner =>
      have hIRK : innerRoundKeys inner := hqk (r.url, inner) (lookupA_mem hlk)
      rw [cpAddResponse_responses_some q r inner hlk q' hok,
        insertA_next_round inner _ hIRK]
      have hsome : (lookupA q.compressedResponses r.url).isSome := by simp [hlk]
      rw [show insertA q.compressedResponses r.url
            (inner ++ [(roundKey (inner.length + 1), ⟨r.ToJSON⟩)])
          = overwriteA q.compressedResponses r.url
            (inner ++ [(roundKey (inner.length + 1), ⟨r.ToJSON⟩)]) from by
        simp [insertA, hsome]]
      have hsum := sum_map_overwriteA List.length q.compressedResponses r.url
        (inner ++ [(roundKey (inner.length + 1), ⟨r.ToJSON⟩)]) inner hqn hlk
      simp only [List.length_append, List.length_singleton] at hsum
      omega

/-- C9 witness: a plain store with one URL and a compressed store with one URL;
adding a duplicate-URL record leaves the plain `Len` at 1, fresh URL makes it 2,
and the compressed count always grows by one. -/
theorem c9_count_units_witness :
    (∀ inner, lookupA (⟨[("https://example.com/api1", [(roundKey 1, sampleOk)])],
        1, 1, 0, []⟩ : ResponsePack).responses sampleOk.url = some inner →
      ∀ p', (⟨[("https://example.com/api1", [(roundKey 1, sampleOk)])],
        1, 1, 0, []⟩ : ResponsePack).AddResponse (some sampleOk) = .ok p' →
        p'.Len = (⟨[("https://example.com/api1", [(roundKey 1, sampleOk)])],
          1, 1, 0, []⟩ : ResponsePack).Len) ∧
    (lookupA (⟨[("https://example.com/api1", [(roundKey 1, sampleOk)])],
        1, 1, 0, []⟩ : ResponsePack).responses sampleOk.url = none →
      ∀ p', (⟨[("https://example.com/api1", [(roundKey 1, sampleOk)])],
        1, 1, 0, []⟩ : ResponsePack).AddResponse (some sampleOk) = .ok p' →
        p'.Len = (⟨[("https://example.com/api1", [(roundKey 1, sampleOk)])],
          1, 1, 0, []⟩ : ResponsePack).Len + 1) ∧
    (∀ q', (⟨[("https://example.com/api1", [(roundKey 1, GzipData.mk sampleOk.ToJSON)])],
        []⟩ : CompressResponsePack).AddResponse (some sampleOk) = .ok q' →
      q'.GetResponseCount
        = (⟨[("https://example.com/api1", [(roundKey 1, GzipData.mk sampleOk.ToJSON)])],
            []⟩ : CompressResponsePack).GetResponseCount + 1) :=
  c9_count_units _ _ sampleOk (by decide)
    (by intro e he; simp at he; rw [he]; simp only [innerRoundKeys]; decide)

end GoResponse
